import Mathlib

/-
  Verification of the phnx-im/infra coreclient specification.

  The repository ships only the generated FFI binding header
  (src/coreclient/dart-bridge/bridge_generated.h): the native messaging core
  behind it (identity store, conversation registry, network sync engine,
  event notifier) is declared there but its body is not part of the sources.
  Following the specification, those components are modelled here from the
  spec's words; the one function whose body is visible in the header,
  dummy_method_to_enforce_bundling, is embedded directly from the C source.
-/

namespace Phnx

/-- Byte sequences crossing the FFI boundary (wire_uint_8_list): each entry
is one byte. -/
abbrev Bytes := List Nat

/-- Modelled from the spec: the error kinds of section 7 (the core's bodies
are absent from the sources; only the binding declarations are present). -/
inductive CoreError where
  | configError
  | networkError
  | notFoundError
  | userNotFoundError
  | duplicateUserError
  | decodeError
  deriving DecidableEq, Repr

/-- Modelled from the spec: a Message has a sender reference, payload bytes
and a monotonic position within its conversation. -/
structure Message where
  sender : String
  payload : Bytes
  position : Nat
  deriving DecidableEq, Repr

/-- Modelled from the spec: a Conversation has a unique identifier
(128-bit UUID given as 16 raw bytes), a display name, an ordered member
list and an ordered message history. -/
structure Conversation where
  id : Bytes
  name : String
  members : List String
  messages : List Message
  deriving DecidableEq, Repr

/-- Modelled from the spec: the Client State root aggregate - backend URL,
local user, and the conversation registry kept in insertion order. -/
structure ClientState where
  backendUrl : Option String
  localUser : Option String
  conversations : List Conversation
  deriving DecidableEq, Repr

/-- Modelled from the spec: events emitted by the Event Notifier, one per
state change observed while merging fetched data. -/
inductive CoreEvent where
  | newMessage (conversationId : Bytes) (message : Message)
  deriving DecidableEq, Repr

/-- Modelled from the spec: identifier bytes decode to a conversation id
exactly when they are a 128-bit (16-byte) UUID; otherwise DecodeError. -/
def decodeUuid (bytes : Bytes) : Except CoreError Bytes :=
  if bytes.length = 16 then .ok bytes else .error .decodeError

/-- Registry lookup by conversation id. -/
def findConversation (convs : List Conversation) (cid : Bytes) : Option Conversation :=
  convs.find? (fun c => c.id == cid)

/-- Whether the registry knows a conversation id. -/
def knownConv (convs : List Conversation) (cid : Bytes) : Bool :=
  convs.any (fun c => c.id == cid)

/-- Apply a function to the conversation with the given id, leaving all
others untouched. -/
def updateConv (convs : List Conversation) (cid : Bytes)
    (f : Conversation → Conversation) : List Conversation :=
  convs.map (fun c => if c.id = cid then f c else c)

/-- Modelled from the spec: initialize(backend_url) configures the remote
endpoint; ConfigError on a malformed or unreachable URL (reachability is a
backend input to the model). -/
def initialize_backend (st : ClientState) (url : String) (reachable : Bool) :
    Except CoreError ClientState :=
  if reachable then .ok { st with backendUrl := some url }
  else .error .configError

/-- Modelled from the spec: create_user registers the identity with the
backend; DuplicateUserError if the name is taken, NetworkError on transport
failure. The backend's view (taken names, transport health) is an input. -/
def create_user (st : ClientState) (username : String) (taken : List String)
    (netOk : Bool) : Except CoreError ClientState :=
  if netOk then
    if username ∈ taken then .error .duplicateUserError
    else .ok { st with localUser := some username }
  else .error .networkError

/-- Modelled from the spec: create_conversation allocates a new conversation
id at the backend, registers the creator as sole member and returns the id;
NetworkError if backend registration fails (none). -/
def create_conversation (st : ClientState) (name : String)
    (backendId : Option Bytes) : Except CoreError (ClientState × Bytes) :=
  match st.localUser with
  | none => .error .configError
  | some creator =>
    match backendId with
    | none => .error .networkError
    | some cid =>
      .ok ({ st with conversations :=
               st.conversations ++ [⟨cid, name, [creator], []⟩] }, cid)

/-- Modelled from the spec: get_conversations returns the full ordered set
of known conversations in registry insertion order; never fails once
initialized. -/
def get_conversations (st : ClientState) : Except CoreError (List Conversation) :=
  .ok st.conversations

/-- Modelled from the spec: invite_user adds a member; NotFoundError if the
conversation is unknown, UserNotFoundError if the username is unregistered
(the backend's registered-user list is an input to the model). -/
def invite_user (st : ClientState) (conversationId : Bytes) (username : String)
    (registered : List String) : Except CoreError ClientState :=
  match decodeUuid conversationId with
  | .error e => .error e
  | .ok cid =>
    if knownConv st.conversations cid then
      if username ∈ registered then
        let addMember := fun (c : Conversation) =>
          { c with members := c.members ++ [username] }
        .ok { st with conversations := updateConv st.conversations cid addMember }
      else .error .userNotFoundError
    else .error .notFoundError

/-- Modelled from the spec: send_message transmits the payload to the
backend and appends to local history only after backend acknowledgment
(ack input); NetworkError without acknowledgment, NotFoundError for an
unknown conversation. -/
def send_message (st : ClientState) (conversationId : Bytes) (payload : Bytes)
    (ack : Bool) : Except CoreError ClientState :=
  match decodeUuid conversationId with
  | .error e => .error e
  | .ok cid =>
    if knownConv st.conversations cid then
      if ack then
        let appendMsg := fun (c : Conversation) =>
          { c with messages :=
              c.messages ++ [⟨(st.localUser).getD "", payload, c.messages.length⟩] }
        .ok { st with conversations := updateConv st.conversations cid appendMsg }
      else .error .networkError
    else .error .notFoundError

/-- Modelled from the spec: get_messages returns up to last_n most recent
messages (fewer if history is shorter), in send order; NotFoundError for an
unknown conversation id. -/
def get_messages (st : ClientState) (conversationId : Bytes) (lastN : Nat) :
    Except CoreError (List Message) :=
  match decodeUuid conversationId with
  | .error e => .error e
  | .ok cid =>
    match findConversation st.conversations cid with
    | none => .error .notFoundError
    | some c => .ok (c.messages.drop (c.messages.length - lastN))

/-- Modelled from the spec: get_clients retrieves the peer-client list from
the backend; NetworkError on transport failure. It reads no registry
state. -/
def get_clients (_st : ClientState) (backendClients : Option (List String)) :
    Except CoreError (List String) :=
  match backendClients with
  | none => .error .networkError
  | some cs => .ok cs

/-- Merge step of the fetch pipeline: insert one fetched message unless an
identical one is already present (deduplication by message identity). -/
def insertMsg (acc : List Message) (m : Message) : List Message :=
  if m ∈ acc then acc else acc ++ [m]

/-- Merge a batch of fetched messages into a local history, deduplicating
by message identity and appending new ones in arrival order. -/
def mergeMsgs (cur incoming : List Message) : List Message :=
  incoming.foldl insertMsg cur

/-- Events produced by a fetch: one newMessage event per message actually
added to a conversation, in registry order. -/
def fetchEvents : List Conversation → (Bytes → List Message) → List CoreEvent
  | [], _ => []
  | c :: rest, server =>
    ((mergeMsgs c.messages (server c.id)).drop c.messages.length).map
        (CoreEvent.newMessage c.id)
      ++ fetchEvents rest server

/-- Merge one server batch into one conversation. -/
def mergeConv (server : Bytes → List Message) (c : Conversation) : Conversation :=
  { c with messages := mergeMsgs c.messages (server c.id) }

/-- Modelled from the spec: fetch_messages polls the backend for new
messages across all conversations (the server's per-conversation batches
are an input function) and merges them into the registry, deduplicating by
message identity; it returns the updated state and the emitted events. -/
def fetch_messages (st : ClientState) (server : Bytes → List Message) :
    ClientState × List CoreEvent :=
  ({ st with conversations := st.conversations.map (mergeConv server) },
   fetchEvents st.conversations server)

/-- The host-facing operations of the core, with the backend's contribution
(ids it allocates, registered users, acknowledgments, fetched batches)
carried as data of the operation. -/
inductive Op where
  | initializeBackend (url : String) (reachable : Bool)
  | createUser (username : String) (taken : List String) (netOk : Bool)
  | createConversation (name : String) (backendId : Option Bytes)
  | inviteUser (conversationId : Bytes) (username : String) (registered : List String)
  | sendMessage (conversationId : Bytes) (payload : Bytes) (ack : Bool)
  | fetchMessages (server : Bytes → List Message)
  | getConversations
  | getMessages (conversationId : Bytes) (lastN : Nat)
  | getClients (backendClients : Option (List String))

/-- The state after an operation: a failing operation leaves the client
state untouched, a succeeding one installs its result. -/
def applyOp (st : ClientState) : Op → ClientState
  | .initializeBackend url r => ((initialize_backend st url r).toOption).getD st
  | .createUser u t n => ((create_user st u t n).toOption).getD st
  | .createConversation n b =>
      (((create_conversation st n b).toOption).map Prod.fst).getD st
  | .inviteUser cid u reg => ((invite_user st cid u reg).toOption).getD st
  | .sendMessage cid p a => ((send_message st cid p a).toOption).getD st
  | .fetchMessages server => (fetch_messages st server).1
  | .getConversations => st
  | .getMessages _ _ => st
  | .getClients _ => st

/-- Modelled from the spec: the registry invariant - conversation ids are
pairwise distinct 128-bit UUIDs and every conversation has at least one
member. -/
def RegistryInv (st : ClientState) : Prop :=
  (st.conversations.map Conversation.id).Nodup ∧
  (∀ c ∈ st.conversations, c.members ≠ []) ∧
  (∀ c ∈ st.conversations, c.id.length = 16)

/-- Histories only grow by appending: every conversation of the old state
is still present, same id, its old messages an unchanged initial segment of
the new ones. -/
def MessagesExtend (old new : ClientState) : Prop :=
  ∀ c ∈ old.conversations, ∃ c' ∈ new.conversations,
    c'.id = c.id ∧ ∃ t, c'.messages = c.messages ++ t

/-- Modelled from the spec: the backend allocates conversation ids, so an
id it hands to create_conversation is a fresh 16-byte UUID; every other
operation needs nothing of the backend for the invariant. -/
def FreshOk (st : ClientState) : Op → Prop
  | .createConversation _ (some cid) =>
      cid.length = 16 ∧ cid ∉ st.conversations.map Conversation.id
  | _ => True

/-- Modelled from the spec: the phases of the per-conversation fetch state
machine. -/
inductive FetchPhase where
  | idle
  | fetching
  | merged
  | failed
  deriving DecidableEq, Repr

/-- Modelled from the spec: the transitions of the fetch state machine -
Idle to Fetching, Fetching to Merged or Failed, and both outcomes settle
back to Idle. -/
inductive FetchStep : FetchPhase → FetchPhase → Prop where
  | beginFetch : FetchStep .idle .fetching
  | mergeOk : FetchStep .fetching .merged
  | mergeFail : FetchStep .fetching .failed
  | settleMerged : FetchStep .merged .idle
  | settleFailed : FetchStep .failed .idle

/-- The addresses of the 22 functions the header's bundling dummy reads, as
64-bit patterns, one field per symbol in declaration order (the two
notifier-mutex drop/share helpers and the Dart-handle wrapper keep
shortened names). -/
structure ExportedAddrs where
  wire_init_lib : Nat
  wire_initialize_backend__method__RustState : Nat
  wire_create_user__method__RustState : Nat
  wire_create_conversation__method__RustState : Nat
  wire_get_conversations__method__RustState : Nat
  wire_invite_user__method__RustState : Nat
  wire_send_message__method__RustState : Nat
  wire_get_messages__method__RustState : Nat
  wire_get_clients__method__RustState : Nat
  wire_register_stream__method__RustState : Nat
  wire_fetch_messages__method__RustState : Nat
  new_MutexCorelibDartNotifier : Nat
  new_box_autoadd_rust_state_0 : Nat
  new_box_autoadd_uuid_bytes_0 : Nat
  new_uint_8_list_0 : Nat
  drop_shared_MutexCorelibDartNotifier : Nat
  share_shared_MutexCorelibDartNotifier : Nat
  free_WireSyncReturn : Nat
  store_dart_post_cobject : Nat
  get_dart_object : Nat
  drop_dart_object : Nat
  new_dart_handle : Nat

/-- The 22 addresses in the order the C body folds them. -/
def addrList (a : ExportedAddrs) : List Nat :=
  [a.wire_init_lib,
   a.wire_initialize_backend__method__RustState,
   a.wire_create_user__method__RustState,
   a.wire_create_conversation__method__RustState,
   a.wire_get_conversations__method__RustState,
   a.wire_invite_user__method__RustState,
   a.wire_send_message__method__RustState,
   a.wire_get_messages__method__RustState,
   a.wire_get_clients__method__RustState,
   a.wire_register_stream__method__RustState,
   a.wire_fetch_messages__method__RustState,
   a.new_MutexCorelibDartNotifier,
   a.new_box_autoadd_rust_state_0,
   a.new_box_autoadd_uuid_bytes_0,
   a.new_uint_8_list_0,
   a.drop_shared_MutexCorelibDartNotifier,
   a.share_shared_MutexCorelibDartNotifier,
   a.free_WireSyncReturn,
   a.store_dart_post_cobject,
   a.get_dart_object,
   a.drop_dart_object,
   a.new_dart_handle]

/-- Embedded from bridge_generated.h lines 96-121: dummy_var starts at 0
and is xor-ed with each exported address in declaration order. -/
def dummy_method_to_enforce_bundling (a : ExportedAddrs) : Nat :=
  (addrList a).foldl Nat.xor 0

theorem mergeMsgs_nil (cur : List Message) : mergeMsgs cur [] = cur := rfl

theorem mergeMsgs_cons (cur : List Message) (m : Message) (rest : List Message) :
    mergeMsgs cur (m :: rest) = mergeMsgs (insertMsg cur m) rest := rfl

theorem insertMsg_eq_append (acc : List Message) (m : Message) :
    insertMsg acc m = acc ++ (if m ∈ acc then [] else [m]) := by
  unfold insertMsg
  split <;> simp_all

theorem mem_insertMsg_self (acc : List Message) (m : Message) :
    m ∈ insertMsg acc m := by
  unfold insertMsg
  split <;> simp_all

theorem insertMsg_of_mem {acc : List Message} {m : Message} (h : m ∈ acc) :
    insertMsg acc m = acc := by
  unfold insertMsg
  simp [h]

theorem mergeMsgs_extend (inc : List Message) :
    ∀ cur, ∃ t, mergeMsgs cur inc = cur ++ t := by
  induction inc with
  | nil => exact fun cur => ⟨[], by simp [mergeMsgs_nil]⟩
  | cons m rest ih =>
    intro cur
    obtain ⟨t, ht⟩ := ih (insertMsg cur m)
    refine ⟨(if m ∈ cur then [] else [m]) ++ t, ?_⟩
    rw [mergeMsgs_cons, ht, insertMsg_eq_append, List.append_assoc]

theorem mem_mergeMsgs_left {m : Message} {cur : List Message} (h : m ∈ cur)
    (inc : List Message) : m ∈ mergeMsgs cur inc := by
  obtain ⟨t, ht⟩ := mergeMsgs_extend inc cur
  rw [ht]
  exact List.mem_append_left t h

theorem mem_mergeMsgs_right {m : Message} (inc : List Message) :
    ∀ cur, m ∈ inc → m ∈ mergeMsgs cur inc := by
  induction inc with
  | nil => simp
  | cons m' rest ih =>
    intro cur hm
    rw [mergeMsgs_cons]
    rcases List.mem_cons.mp hm with h | h
    · subst h
      exact mem_mergeMsgs_left (mem_insertMsg_self cur m) rest
    · exact ih (insertMsg cur m') h

theorem mergeMsgs_eq_self (inc : List Message) :
    ∀ cur, (∀ m ∈ inc, m ∈ cur) → mergeMsgs cur inc = cur := by
  induction inc with
  | nil => exact fun cur _ => rfl
  | cons m rest ih =>
    intro cur h
    rw [mergeMsgs_cons, insertMsg_of_mem (h m (List.mem_cons_self m rest))]
    exact ih cur (fun m' hm' => h m' (List.mem_cons_of_mem m hm'))

theorem mergeMsgs_idem (cur inc : List Message) :
    mergeMsgs (mergeMsgs cur inc) inc = mergeMsgs cur inc :=
  mergeMsgs_eq_self inc _ (fun _ hm => mem_mergeMsgs_right inc cur hm)

theorem mergeConv_idem (server : Bytes → List Message) (c : Conversation) :
    mergeConv server (mergeConv server c) = mergeConv server c := by
  simp [mergeConv, mergeMsgs_idem]

theorem map_mergeConv_idem (server : Bytes → List Message) :
    ∀ convs : List Conversation,
      (convs.map (mergeConv server)).map (mergeConv server) =
        convs.map (mergeConv server) := by
  intro convs
  induction convs with
  | nil => rfl
  | cons c rest ih => simp [mergeConv_idem, ih]

theorem fetchEvents_after_merge (server : Bytes → List Message) :
    ∀ convs : List Conversation,
      fetchEvents (convs.map (mergeConv server)) server = [] := by
  intro convs
  induction convs with
  | nil => rfl
  | cons c rest ih =>
    simp only [List.map_cons, fetchEvents, ih, List.append_nil]
    simp [mergeConv, mergeMsgs_idem, List.drop_length]

/-- C1: fetch_messages is idempotent - with no intervening server change, a
second fetch leaves the conversation registry identical to the state after
the first fetch and emits zero events. -/
theorem fetch_messages_idempotent (st : ClientState) (server : Bytes → List Message) :
    (fetch_messages (fetch_messages st server).1 server).1 =
        (fetch_messages st server).1 ∧
    (fetch_messages (fetch_messages st server).1 server).2 = [] := by
  constructor
  · simp only [fetch_messages]
    simp
    intro a _
    exact mergeConv_idem server a
  · simp [fetch_messages, fetchEvents_after_merge]

theorem findConversation_mem {convs : List Conversation}
    (hnd : (convs.map Conversation.id).Nodup) {c : Conversation}
    (hc : c ∈ convs) : findConversation convs c.id = some c := by
  induction convs with
  | nil => cases hc
  | cons d rest ih =>
    rw [List.map_cons, List.nodup_cons] at hnd
    rcases List.mem_cons.mp hc with h | h
    · subst h
      unfold findConversation
      exact List.find?_cons_of_pos rest (by simp)
    · have hne : (d.id == c.id) = false := by
        have : c.id ∈ rest.map Conversation.id := List.mem_map_of_mem Conversation.id h
        simp only [beq_eq_false_iff_ne, ne_eq]
        intro heq
        rw [heq] at hnd
        exact hnd.1 this
      unfold findConversation
      rw [List.find?_cons_of_neg rest (by simp [hne])]
      exact ih hnd.2 h

theorem findConversation_eq_none {convs : List Conversation} {idb : Bytes}
    (h : ∀ c ∈ convs, c.id ≠ idb) : findConversation convs idb = none := by
  unfold findConversation
  rw [List.find?_eq_none]
  intro c hc
  simp [h c hc]

/-- C2: for a conversation known to the registry, get_messages returns the
min(last_n, history length) most recent messages, an unchanged final
segment of the history; for a well-formed id known to no conversation it
fails with NotFoundError. -/
theorem get_messages_spec :
    (∀ (st : ClientState) (c : Conversation) (lastN : Nat),
       RegistryInv st → c ∈ st.conversations →
       ∃ ms : List Message,
         get_messages st c.id lastN = Except.ok ms ∧
         ms.length = min lastN c.messages.length ∧
         c.messages.take (c.messages.length - ms.length) ++ ms = c.messages) ∧
    (∀ (st : ClientState) (idb : Bytes) (lastN : Nat),
       idb.length = 16 → (∀ c ∈ st.conversations, c.id ≠ idb) →
       get_messages st idb lastN = Except.error CoreError.notFoundError) := by
  constructor
  · intro st c lastN hInv hc
    have h16 : c.id.length = 16 := hInv.2.2 c hc
    have hfind : findConversation st.conversations c.id = some c :=
      findConversation_mem hInv.1 hc
    refine ⟨c.messages.drop (c.messages.length - lastN), ?_, ?_, ?_⟩
    · simp [get_messages, decodeUuid, h16, hfind]
    · simp only [List.length_drop]
      omega
    · have hlen : (c.messages.drop (c.messages.length - lastN)).length =
          c.messages.length - (c.messages.length - lastN) := by
        simp [List.length_drop]
      rw [hlen]
      have h2 : c.messages.length -
          (c.messages.length - (c.messages.length - lastN)) =
          c.messages.length - lastN := by omega
      rw [h2]
      exact List.take_append_drop _ _
  · intro st idb lastN h16 hnone
    have hf : findConversation st.conversations idb = none :=
      findConversation_eq_none hnone
    simp [get_messages, decodeUuid, h16, hf]

/-- A sample client state with two conversations used to instantiate the
conditional theorems. -/
def uuidA : Bytes := List.replicate 16 0

def uuidB : Bytes := 1 :: List.replicate 15 0

def uuidC : Bytes := 2 :: List.replicate 15 0

def msgA : Message := ⟨"alice", [104, 105], 0⟩

def msgB : Message := ⟨"bob", [121, 111], 1⟩

def demoConv : Conversation := ⟨uuidA, "general", ["alice", "bob"], [msgA, msgB]⟩

def demoConv2 : Conversation := ⟨uuidB, "random", ["alice"], []⟩

def demoState : ClientState :=
  ⟨some "https://backend", some "alice", [demoConv, demoConv2]⟩

/-- Witness for C2 at a concrete state: one recent message of two, and a
miss on an unknown id. -/
theorem get_messages_spec_witness :
    (∃ ms : List Message,
       get_messages demoState demoConv.id 1 = Except.ok ms ∧
       ms.length = min 1 demoConv.messages.length ∧
       demoConv.messages.take (demoConv.messages.length - ms.length) ++ ms =
         demoConv.messages) ∧
    get_messages demoState uuidC 5 = Except.error CoreError.notFoundError :=
  ⟨get_messages_spec.1 demoState demoConv 1
      (by unfold RegistryInv; decide) (by decide),
   get_messages_spec.2 demoState uuidC 5 (by decide) (by decide)⟩

instance decEqExcept {ε α : Type} [DecidableEq ε] [DecidableEq α] :
    DecidableEq (Except ε α) := fun a b =>
  match a, b with
  | .ok x, .ok y =>
    if h : x = y then isTrue (by rw [h]) else isFalse (by simp [h])
  | .error x, .error y =>
    if h : x = y then isTrue (by rw [h]) else isFalse (by simp [h])
  | .ok _, .error _ => isFalse (by simp)
  | .error _, .ok _ => isFalse (by simp)

theorem knownConv_iff (convs : List Conversation) (idb : Bytes) :
    knownConv convs idb = true ↔ ∃ c ∈ convs, c.id = idb := by
  simp [knownConv]

theorem knownConv_eq_false {convs : List Conversation} {idb : Bytes}
    (h : ∀ c ∈ convs, c.id ≠ idb) : knownConv convs idb = false := by
  simp only [knownConv, List.any_eq_false]
  intro c hc
  simp [h c hc]

theorem updateConv_length (convs : List Conversation) (cid : Bytes)
    (f : Conversation → Conversation) :
    (updateConv convs cid f).length = convs.length := by
  simp [updateConv]

theorem mem_updateConv_self {convs : List Conversation} {cid : Bytes}
    {c : Conversation} (f : Conversation → Conversation)
    (hc : c ∈ convs) (hid : c.id = cid) : f c ∈ updateConv convs cid f := by
  have := List.mem_map_of_mem (fun d => if d.id = cid then f d else d) hc
  simpa [updateConv, hid] using this

theorem mem_updateConv_of_ne {convs : List Conversation} {cid : Bytes}
    {d : Conversation} (f : Conversation → Conversation)
    (hd : d ∈ convs) (hne : d.id ≠ cid) : d ∈ updateConv convs cid f := by
  have := List.mem_map_of_mem (fun c => if c.id = cid then f c else c) hd
  simpa [updateConv, hne] using this

theorem send_message_ok {st st' : ClientState} {cidb payload : Bytes} {ack : Bool}
    (h : send_message st cidb payload ack = Except.ok st') :
    st'.conversations =
      updateConv st.conversations cidb
        (fun c => { c with messages :=
            c.messages ++ [⟨(st.localUser).getD "", payload, c.messages.length⟩] }) ∧
    knownConv st.conversations cidb = true ∧ ack = true := by
  unfold send_message decodeUuid at h
  by_cases h16 : cidb.length = 16
  · simp only [h16, if_true] at h
    by_cases hk : knownConv st.conversations cidb = true
    · simp only [hk, if_true] at h
      by_cases ha : ack = true
      · simp only [ha, if_true] at h
        cases h
        exact ⟨rfl, hk, ha⟩
      · simp [ha] at h
    · simp [hk] at h
  · simp [h16] at h

/-- C3: send_message appends only after acknowledgment - any error leaves
the state unchanged; on success the message is appended exactly once at the
end of the addressed conversation's history, and every other conversation
is untouched. -/
theorem send_message_spec :
    (∀ (st : ClientState) (cidb payload : Bytes) (ack : Bool) (e : CoreError),
       send_message st cidb payload ack = Except.error e →
       applyOp st (Op.sendMessage cidb payload ack) = st) ∧
    (∀ (st st' : ClientState) (cidb payload : Bytes) (ack : Bool),
       send_message st cidb payload ack = Except.ok st' →
       st'.conversations.length = st.conversations.length ∧
       (∃ c ∈ st.conversations, c.id = cidb) ∧
       (∀ c ∈ st.conversations, c.id = cidb →
          ∃ c' ∈ st'.conversations, c'.id = c.id ∧
            c'.messages = c.messages ++
              [⟨(st.localUser).getD "", payload, c.messages.length⟩]) ∧
       (∀ d ∈ st.conversations, d.id ≠ cidb → d ∈ st'.conversations)) := by
  constructor
  · intro st cidb payload ack e h
    simp [applyOp, h, Except.toOption]
  · intro st st' cidb payload ack hok
    obtain ⟨hconv, hk, _⟩ := send_message_ok hok
    refine ⟨?_, ?_, ?_, ?_⟩
    · rw [hconv, updateConv_length]
    · exact (knownConv_iff st.conversations cidb).mp hk
    · intro c hc hcid
      refine ⟨{ c with messages :=
          c.messages ++ [⟨(st.localUser).getD "", payload, c.messages.length⟩] },
        ?_, rfl, rfl⟩
      rw [hconv]
      exact mem_updateConv_self _ hc hcid
    · intro d hd hne
      rw [hconv]
      exact mem_updateConv_of_ne _ hd hne

/-- The demo state after a successful send of payload [7] to the first
conversation. -/
def demoSent : ClientState :=
  ⟨some "https://backend", some "alice",
   [⟨uuidA, "general", ["alice", "bob"], [msgA, msgB, ⟨"alice", [7], 2⟩]⟩,
    demoConv2]⟩

/-- Witness for C3: an unacknowledged send leaves the demo state untouched;
an acknowledged one appends once at the end. -/
theorem send_message_spec_witness :
    applyOp demoState (Op.sendMessage uuidA [9] false) = demoState ∧
    (demoSent.conversations.length = demoState.conversations.length ∧
     (∃ c ∈ demoState.conversations, c.id = uuidA) ∧
     (∀ c ∈ demoState.conversations, c.id = uuidA →
        ∃ c' ∈ demoSent.conversations, c'.id = c.id ∧
          c'.messages = c.messages ++
            [⟨(demoState.localUser).getD "", [7], c.messages.length⟩]) ∧
     (∀ d ∈ demoState.conversations, d.id ≠ uuidA → d ∈ demoSent.conversations)) :=
  ⟨send_message_spec.1 demoState uuidA [9] false CoreError.networkError (by decide),
   send_message_spec.2 demoState demoSent uuidA [7] true (by decide)⟩

/-- C4: invite_user on a well-formed conversation id no conversation
carries fails with NotFoundError and leaves the whole client state (so
every membership list) unchanged; on a known conversation with an
unregistered username it fails with UserNotFoundError. -/
theorem invite_user_spec :
    (∀ (st : ClientState) (cidb : Bytes) (username : String)
       (registered : List String),
       cidb.length = 16 → (∀ c ∈ st.conversations, c.id ≠ cidb) →
       invite_user st cidb username registered =
           Except.error CoreError.notFoundError ∧
       applyOp st (Op.inviteUser cidb username registered) = st) ∧
    (∀ (st : ClientState) (cidb : Bytes) (username : String)
       (registered : List String),
       cidb.length = 16 → knownConv st.conversations cidb = true →
       username ∉ registered →
       invite_user st cidb username registered =
         Except.error CoreError.userNotFoundError) := by
  constructor
  · intro st cidb username registered h16 hnone
    have hk : knownConv st.conversations cidb = false := knownConv_eq_false hnone
    have herr : invite_user st cidb username registered =
        Except.error CoreError.notFoundError := by
      simp [invite_user, decodeUuid, h16, hk]
    exact ⟨herr, by simp [applyOp, herr, Except.toOption]⟩
  · intro st cidb username registered h16 hk hreg
    simp [invite_user, decodeUuid, h16, hk, hreg]

/-- Witness for C4: inviting into an unknown conversation and inviting an
unregistered user at the demo state. -/
theorem invite_user_spec_witness :
    (invite_user demoState uuidC "carol" ["alice", "bob", "carol"] =
         Except.error CoreError.notFoundError ∧
     applyOp demoState (Op.inviteUser uuidC "carol" ["alice", "bob", "carol"]) =
       demoState) ∧
    invite_user demoState uuidA "mallory" ["alice", "bob", "carol"] =
      Except.error CoreError.userNotFoundError :=
  ⟨invite_user_spec.1 demoState uuidC "carol" ["alice", "bob", "carol"]
      (by decide) (by decide),
   invite_user_spec.2 demoState uuidA "mallory" ["alice", "bob", "carol"]
      (by decide) (by decide) (by decide)⟩

/-- C9: a conversation-id byte sequence whose length is not 16 makes
invite_user, send_message and get_messages fail with DecodeError, and the
client state is not mutated. -/
theorem malformed_uuid_decode_error :
    ∀ (st : ClientState) (idb : Bytes) (username : String)
      (registered : List String) (payload : Bytes) (ack : Bool) (lastN : Nat),
      idb.length ≠ 16 →
      invite_user st idb username registered = Except.error CoreError.decodeError ∧
      send_message st idb payload ack = Except.error CoreError.decodeError ∧
      get_messages st idb lastN = Except.error CoreError.decodeError ∧
      applyOp st (Op.inviteUser idb username registered) = st ∧
      applyOp st (Op.sendMessage idb payload ack) = st ∧
      applyOp st (Op.getMessages idb lastN) = st := by
  intro st idb username registered payload ack lastN h
  have h1 : invite_user st idb username registered =
      Except.error CoreError.decodeError := by
    simp [invite_user, decodeUuid, h]
  have h2 : send_message st idb payload ack =
      Except.error CoreError.decodeError := by
    simp [send_message, decodeUuid, h]
  have h3 : get_messages st idb lastN = Except.error CoreError.decodeError := by
    simp [get_messages, decodeUuid, h]
  refine ⟨h1, h2, h3, ?_, ?_, rfl⟩
  · simp [applyOp, h1, Except.toOption]
  · simp [applyOp, h2, Except.toOption]

/-- Witness for C9: a 3-byte identifier is rejected everywhere at the demo
state. -/
theorem malformed_uuid_decode_error_witness :
    invite_user demoState [1, 2, 3] "bob" ["bob"] =
        Except.error CoreError.decodeError ∧
    send_message demoState [1, 2, 3] [42] true =
        Except.error CoreError.decodeError ∧
    get_messages demoState [1, 2, 3] 4 = Except.error CoreError.decodeError ∧
    applyOp demoState (Op.inviteUser [1, 2, 3] "bob" ["bob"]) = demoState ∧
    applyOp demoState (Op.sendMessage [1, 2, 3] [42] true) = demoState ∧
    applyOp demoState (Op.getMessages [1, 2, 3] 4) = demoState :=
  malformed_uuid_decode_error demoState [1, 2, 3] "bob" ["bob"] [42] true 4
    (by decide)

theorem create_conversation_ok {st st' : ClientState} {name : String}
    {bid rid : Bytes} {creator : String} (huser : st.localUser = some creator)
    (h : create_conversation st name (some bid) = Except.ok (st', rid)) :
    st'.conversations = st.conversations ++ [⟨bid, name, [creator], []⟩] ∧
    rid = bid ∧ st'.backendUrl = st.backendUrl ∧
    st'.localUser = some creator := by
  unfold create_conversation at h
  rw [huser] at h
  simp only [Except.ok.injEq, Prod.mk.injEq] at h
  obtain ⟨h1, h2⟩ := h
  subst h1
  subst h2
  exact ⟨rfl, rfl, rfl, rfl⟩

/-- A state that already holds a conversation named team. -/
def c5State : ClientState :=
  ⟨some "https://backend", some "alice", [⟨uuidA, "team", ["alice"], []⟩]⟩

/-- c5State after creating a second conversation named team. -/
def c5After : ClientState :=
  ⟨some "https://backend", some "alice",
   [⟨uuidA, "team", ["alice"], []⟩, ⟨uuidB, "team", ["alice"], []⟩]⟩

/-- C5 counterexample: from an initialized state that already has a
conversation named team, a successful create_conversation of team is
followed by a registry with two conversations of that name, not exactly
one. -/
theorem create_conversation_team_counterexample :
    create_conversation c5State "team" (some uuidB) =
        Except.ok (c5After, uuidB) ∧
    get_conversations c5After = Except.ok c5After.conversations ∧
    (c5After.conversations.filter (fun c => c.name == "team")).length = 2 := by
  refine ⟨by decide, rfl, by decide⟩

/-- C5 (amended): from an initialized client state with no conversation yet
named team, a successful create_conversation of team followed by
get_conversations yields exactly one conversation named team, holding the
creator as sole member and carrying the returned id. -/
theorem create_conversation_team_spec :
    ∀ (st st' : ClientState) (creator : String) (cid : Bytes),
      st.localUser = some creator →
      (∀ c ∈ st.conversations, c.name ≠ "team") →
      create_conversation st "team" (some cid) = Except.ok (st', cid) →
      get_conversations st' = Except.ok st'.conversations ∧
      st'.conversations.filter (fun c => c.name == "team") =
        [⟨cid, "team", [creator], []⟩] := by
  intro st st' creator cid huser hnone hok
  obtain ⟨hconvs, -, -, -⟩ := create_conversation_ok huser hok
  refine ⟨rfl, ?_⟩
  rw [hconvs, List.filter_append]
  have hnil : st.conversations.filter (fun c => c.name == "team") = [] := by
    rw [List.filter_eq_nil_iff]
    intro c hc
    simp [hnone c hc]
  rw [hnil]
  rfl

/-- The demo state after creating a team conversation with backend id
uuidC. -/
def demoTeam : ClientState :=
  ⟨some "https://backend", some "alice",
   [demoConv, demoConv2, ⟨uuidC, "team", ["alice"], []⟩]⟩

/-- Witness for the amended C5 at the demo state. -/
theorem create_conversation_team_spec_witness :
    get_conversations demoTeam = Except.ok demoTeam.conversations ∧
    demoTeam.conversations.filter (fun c => c.name == "team") =
      [⟨uuidC, "team", ["alice"], []⟩] :=
  create_conversation_team_spec demoState demoTeam "alice" uuidC
    (by decide) (by decide) (by decide)

theorem filter_id_singleton {convs : List Conversation}
    (hnd : (convs.map Conversation.id).Nodup) {c : Conversation}
    (hc : c ∈ convs) :
    (convs.filter (fun c' => c'.id == c.id)).length = 1 := by
  induction convs with
  | nil => cases hc
  | cons d rest ih =>
    rw [List.map_cons, List.nodup_cons] at hnd
    rcases List.mem_cons.mp hc with h | h
    · subst h
      have hrest : rest.filter (fun c' => c'.id == c.id) = [] := by
        rw [List.filter_eq_nil_iff]
        intro e he
        simp only [beq_iff_eq]
        intro heq
        exact hnd.1 (heq ▸ List.mem_map_of_mem Conversation.id he)
      simp [List.filter_cons, hrest]
    · have hne : (d.id == c.id) = false := by
        simp only [beq_eq_false_iff_ne, ne_eq]
        intro heq
        exact hnd.1 (heq ▸ List.mem_map_of_mem Conversation.id h)
      simp only [List.filter_cons, hne, if_false, Bool.false_eq_true]
      exact ih hnd.2 h

/-- C8: get_conversations never fails and hands back the registry sequence
itself - each known conversation exactly once (under the registry
invariant), in insertion order: a newly registered conversation lands at
the end of the sequence. -/
theorem get_conversations_spec :
    (∀ st : ClientState, get_conversations st = Except.ok st.conversations) ∧
    (∀ st : ClientState, RegistryInv st → ∀ c ∈ st.conversations,
       (st.conversations.filter (fun c' => c'.id == c.id)).length = 1) ∧
    (∀ (st st' : ClientState) (name : String) (bid : Option Bytes) (cid : Bytes),
       create_conversation st name bid = Except.ok (st', cid) →
       ∃ nc : Conversation, st'.conversations = st.conversations ++ [nc]) := by
  refine ⟨fun st => rfl, ?_, ?_⟩
  · intro st hInv c hc
    exact filter_id_singleton hInv.1 hc
  · intro st st' name bid cid hok
    cases hlu : st.localUser with
    | none => rw [create_conversation, hlu] at hok; cases hok
    | some creator =>
      cases bid with
      | none => rw [create_conversation, hlu] at hok; cases hok
      | some b =>
        obtain ⟨hconvs, -, -, -⟩ := create_conversation_ok hlu hok
        exact ⟨⟨b, name, [creator], []⟩, hconvs⟩

/-- Witness for C8 at the demo state: the accessor succeeds, both demo
conversations occur exactly once, and a fresh registration appends. -/
theorem get_conversations_spec_witness :
    get_conversations demoState = Except.ok demoState.conversations ∧
    (demoState.conversations.filter (fun c' => c'.id == demoConv.id)).length = 1 ∧
    (∃ nc : Conversation,
       demoTeam.conversations = demoState.conversations ++ [nc]) :=
  ⟨get_conversations_spec.1 demoState,
   get_conversations_spec.2.1 demoState (by unfold RegistryInv; decide) demoConv
     (by decide),
   get_conversations_spec.2.2 demoState demoTeam "team" (some uuidC) uuidC
     (by decide)⟩

theorem inv_of_conversations_eq {st st' : ClientState}
    (h : st'.conversations = st.conversations) (hInv : RegistryInv st) :
    RegistryInv st' := by
  unfold RegistryInv at *
  rw [h]
  exact hInv

theorem extend_of_conversations_eq {st st' : ClientState}
    (h : st'.conversations = st.conversations) : MessagesExtend st st' := by
  intro c hc
  exact ⟨c, by rw [h]; exact hc, rfl, [], by simp⟩

theorem map_id_map_of_preserve {g : Conversation → Conversation}
    (hg : ∀ c, (g c).id = c.id) :
    ∀ convs : List Conversation,
      (convs.map g).map Conversation.id = convs.map Conversation.id := by
  intro convs
  induction convs with
  | nil => rfl
  | cons d rest ih => simp [hg, ih]

theorem inv_preserved_map {g : Conversation → Conversation}
    (hid : ∀ c, (g c).id = c.id)
    (hmem : ∀ c, c.members ≠ [] → (g c).members ≠ [])
    {st st' : ClientState}
    (hconvs : st'.conversations = st.conversations.map g)
    (hInv : RegistryInv st) : RegistryInv st' := by
  refine ⟨?_, ?_, ?_⟩
  · rw [hconvs, map_id_map_of_preserve hid]
    exact hInv.1
  · intro c hc
    rw [hconvs] at hc
    obtain ⟨d, hd, rfl⟩ := List.mem_map.mp hc
    exact hmem d (hInv.2.1 d hd)
  · intro c hc
    rw [hconvs] at hc
    obtain ⟨d, hd, rfl⟩ := List.mem_map.mp hc
    rw [hid]
    exact hInv.2.2 d hd

theorem extend_map {g : Conversation → Conversation}
    (hid : ∀ c, (g c).id = c.id)
    (hmsg : ∀ c, ∃ t, (g c).messages = c.messages ++ t)
    {st st' : ClientState}
    (hconvs : st'.conversations = st.conversations.map g) :
    MessagesExtend st st' := by
  intro c hc
  refine ⟨g c, ?_, hid c, hmsg c⟩
  rw [hconvs]
  exact List.mem_map_of_mem g hc

/-- C6: every operation preserves the registry invariant - ids stay
pairwise distinct 16-byte UUIDs, every conversation keeps at least one
member - and message histories only grow by appending, assuming the backend
hands create_conversation a fresh well-formed id. -/
theorem ops_preserve_registry_invariant :
    ∀ (st : ClientState) (op : Op), RegistryInv st → FreshOk st op →
      RegistryInv (applyOp st op) ∧ MessagesExtend st (applyOp st op) := by
  intro st op hInv hfresh
  cases op with
  | initializeBackend url r =>
    have hconv : (applyOp st (Op.initializeBackend url r)).conversations =
        st.conversations := by
      cases r <;> simp [applyOp, initialize_backend, Except.toOption]
    exact ⟨inv_of_conversations_eq hconv hInv, extend_of_conversations_eq hconv⟩
  | createUser u t n =>
    have hconv : (applyOp st (Op.createUser u t n)).conversations =
        st.conversations := by
      cases n with
      | false => simp [applyOp, create_user, Except.toOption]
      | true =>
        by_cases hmem : u ∈ t
        · simp [applyOp, create_user, hmem, Except.toOption]
        · simp [applyOp, create_user, hmem, Except.toOption]
    exact ⟨inv_of_conversations_eq hconv hInv, extend_of_conversations_eq hconv⟩
  | createConversation name bid =>
    cases hlu : st.localUser with
    | none =>
      have hconv : (applyOp st (Op.createConversation name bid)).conversations =
          st.conversations := by
        cases bid <;> simp [applyOp, create_conversation, hlu, Except.toOption]
      exact ⟨inv_of_conversations_eq hconv hInv, extend_of_conversations_eq hconv⟩
    | some creator =>
      cases bid with
      | none =>
        have hconv :
            (applyOp st (Op.createConversation name none)).conversations =
              st.conversations := by
          simp [applyOp, create_conversation, hlu, Except.toOption]
        exact ⟨inv_of_conversations_eq hconv hInv, extend_of_conversations_eq hconv⟩
      | some cid =>
        obtain ⟨hf16, hffresh⟩ := hfresh
        have hconv :
            (applyOp st (Op.createConversation name (some cid))).conversations =
              st.conversations ++ [⟨cid, name, [creator], []⟩] := by
          simp [applyOp, create_conversation, hlu, Except.toOption]
        constructor
        · refine ⟨?_, ?_, ?_⟩
          · rw [hconv]
            simp only [List.map_append, List.map_cons, List.map_nil]
            rw [List.nodup_append]
            refine ⟨hInv.1, List.nodup_singleton cid, ?_⟩
            intro a ha hb
            rw [List.mem_singleton] at hb
            exact hffresh (hb ▸ ha)
          · intro c hc
            rw [hconv] at hc
            rcases List.mem_append.mp hc with h | h
            · exact hInv.2.1 c h
            · rw [List.mem_singleton] at h
              subst h
              simp
          · intro c hc
            rw [hconv] at hc
            rcases List.mem_append.mp hc with h | h
            · exact hInv.2.2 c h
            · rw [List.mem_singleton] at h
              subst h
              exact hf16
        · intro c hc
          exact ⟨c, by rw [hconv]; exact List.mem_append_left _ hc, rfl, [],
                 by simp⟩
  | inviteUser cid u reg =>
    by_cases h16 : cid.length = 16
    · by_cases hk : knownConv st.conversations cid = true
      · by_cases hreg : u ∈ reg
        · have happ : (applyOp st (Op.inviteUser cid u reg)).conversations =
              st.conversations.map
                (fun c => if c.id = cid
                  then { c with members := c.members ++ [u] } else c) := by
            simp [applyOp, invite_user, decodeUuid, h16, hk, hreg,
                  Except.toOption, updateConv]
          constructor
          · refine inv_preserved_map ?_ ?_ happ hInv
            · intro c
              by_cases h : c.id = cid <;> simp [h]
            · intro c hne
              by_cases h : c.id = cid
              · simp [h, List.append_eq_nil]
              · simp [h]
                exact hne
          · refine extend_map ?_ ?_ happ
            · intro c
              by_cases h : c.id = cid <;> simp [h]
            · intro c
              by_cases h : c.id = cid <;> simp [h]
        · have hconv : (applyOp st (Op.inviteUser cid u reg)).conversations =
              st.conversations := by
            simp [applyOp, invite_user, decodeUuid, h16, hk, hreg,
                  Except.toOption]
          exact ⟨inv_of_conversations_eq hconv hInv,
                 extend_of_conversations_eq hconv⟩
      · have hconv : (applyOp st (Op.inviteUser cid u reg)).conversations =
            st.conversations := by
          simp [applyOp, invite_user, decodeUuid, h16, hk, Except.toOption]
        exact ⟨inv_of_conversations_eq hconv hInv,
               extend_of_conversations_eq hconv⟩
    · have hconv : (applyOp st (Op.inviteUser cid u reg)).conversations =
          st.conversations := by
        simp [applyOp, invite_user, decodeUuid, h16, Except.toOption]
      exact ⟨inv_of_conversations_eq hconv hInv,
             extend_of_conversations_eq hconv⟩
  | sendMessage cid p a =>
    by_cases h16 : cid.length = 16
    · by_cases hk : knownConv st.conversations cid = true
      · cases a with
        | false =>
          have hconv : (applyOp st (Op.sendMessage cid p false)).conversations =
              st.conversations := by
            simp [applyOp, send_message, decodeUuid, h16, hk, Except.toOption]
          exact ⟨inv_of_conversations_eq hconv hInv,
                 extend_of_conversations_eq hconv⟩
        | true =>
          have happ : (applyOp st (Op.sendMessage cid p true)).conversations =
              st.conversations.map
                (fun c => if c.id = cid
                  then { c with messages := c.messages ++
                          [⟨(st.localUser).getD "", p, c.messages.length⟩] }
                  else c) := by
            simp [applyOp, send_message, decodeUuid, h16, hk,
                  Except.toOption, updateConv]
          constructor
          · refine inv_preserved_map ?_ ?_ happ hInv
            · intro c
              by_cases h : c.id = cid <;> simp [h]
            · intro c hne
              by_cases h : c.id = cid <;> simpa [h] using hne
          · refine extend_map ?_ ?_ happ
            · intro c
              by_cases h : c.id = cid <;> simp [h]
            · intro c
              by_cases h : c.id = cid
              · exact ⟨[⟨(st.localUser).getD "", p, c.messages.length⟩],
                       by simp [h]⟩
              · exact ⟨[], by simp [h]⟩
      · have hconv : (applyOp st (Op.sendMessage cid p a)).conversations =
            st.conversations := by
          simp [applyOp, send_message, decodeUuid, h16, hk, Except.toOption]
        exact ⟨inv_of_conversations_eq hconv hInv,
               extend_of_conversations_eq hconv⟩
    · have hconv : (applyOp st (Op.sendMessage cid p a)).conversations =
          st.conversations := by
        simp [applyOp, send_message, decodeUuid, h16, Except.toOption]
      exact ⟨inv_of_conversations_eq hconv hInv,
             extend_of_conversations_eq hconv⟩
  | fetchMessages server =>
    have hconv : (applyOp st (Op.fetchMessages server)).conversations =
        st.conversations.map (mergeConv server) := rfl
    constructor
    · refine inv_preserved_map ?_ ?_ hconv hInv
      · intro c
        rfl
      · intro c h
        exact h
    · refine extend_map ?_ ?_ hconv
      · intro c
        rfl
      · intro c
        exact mergeMsgs_extend (server c.id) c.messages
  | getConversations =>
    exact ⟨hInv, extend_of_conversations_eq rfl⟩
  | getMessages cid lastN =>
    exact ⟨hInv, extend_of_conversations_eq rfl⟩
  | getClients bc =>
    exact ⟨hInv, extend_of_conversations_eq rfl⟩

/-- Witness for C6: registering a fresh conversation at the demo state
keeps the invariant and extends no history. -/
theorem ops_preserve_registry_invariant_witness :
    RegistryInv (applyOp demoState (Op.createConversation "x" (some uuidC))) ∧
    MessagesExtend demoState
      (applyOp demoState (Op.createConversation "x" (some uuidC))) :=
  ops_preserve_registry_invariant demoState
    (Op.createConversation "x" (some uuidC))
    (by unfold RegistryInv; decide)
    (show uuidC.length = 16 ∧
        uuidC ∉ demoState.conversations.map Conversation.id by decide)

/-- C7: the fetch state machine admits exactly the five listed transitions,
a Failed fetch settles back to Idle, and from every phase the machine can
re-enter Fetching - a failure is never fatal and a retry is always
possible. -/
theorem fetch_state_machine_spec :
    (∀ a b : FetchPhase, FetchStep a b →
       (a = FetchPhase.idle ∧ b = FetchPhase.fetching) ∨
       (a = FetchPhase.fetching ∧ b = FetchPhase.merged) ∨
       (a = FetchPhase.fetching ∧ b = FetchPhase.failed) ∨
       (a = FetchPhase.merged ∧ b = FetchPhase.idle) ∨
       (a = FetchPhase.failed ∧ b = FetchPhase.idle)) ∧
    FetchStep FetchPhase.failed FetchPhase.idle ∧
    (∀ s : FetchPhase, Relation.ReflTransGen FetchStep s FetchPhase.fetching) := by
  refine ⟨?_, FetchStep.settleFailed, ?_⟩
  · intro a b h
    cases h <;> simp
  · intro s
    have hidle : Relation.ReflTransGen FetchStep FetchPhase.idle
        FetchPhase.fetching :=
      Relation.ReflTransGen.single FetchStep.beginFetch
    cases s with
    | idle => exact hidle
    | fetching => exact Relation.ReflTransGen.refl
    | merged => exact Relation.ReflTransGen.head FetchStep.settleMerged hidle
    | failed => exact Relation.ReflTransGen.head FetchStep.settleFailed hidle

/-- Witness for C7: the Failed-to-Idle transition classified by the
theorem. -/
theorem fetch_state_machine_spec_witness :
    (FetchPhase.failed = FetchPhase.idle ∧
       FetchPhase.idle = FetchPhase.fetching) ∨
    (FetchPhase.failed = FetchPhase.fetching ∧
       FetchPhase.idle = FetchPhase.merged) ∨
    (FetchPhase.failed = FetchPhase.fetching ∧
       FetchPhase.idle = FetchPhase.failed) ∨
    (FetchPhase.failed = FetchPhase.merged ∧
       FetchPhase.idle = FetchPhase.idle) ∨
    (FetchPhase.failed = FetchPhase.failed ∧
       FetchPhase.idle = FetchPhase.idle) :=
  fetch_state_machine_spec.1 FetchPhase.failed FetchPhase.idle
    FetchStep.settleFailed

instance : RightCommutative Nat.xor :=
  ⟨fun b a₁ a₂ => by
    show b ^^^ a₁ ^^^ a₂ = b ^^^ a₂ ^^^ a₁
    rw [Nat.xor_assoc, Nat.xor_assoc, Nat.xor_comm a₁ a₂]⟩

/-- C10: the bundling dummy is the XOR fold, seeded with 0, of the 22
exported addresses in declaration order; it is a deterministic pure
function of those addresses, and since XOR is associative and commutative
any reordering of the addresses folds to the same value. -/
theorem dummy_bundling_spec :
    ∀ (a : ExportedAddrs) (l : List Nat),
      l.Perm (addrList a) →
      dummy_method_to_enforce_bundling a = (addrList a).foldl Nat.xor 0 ∧
      List.foldl Nat.xor 0 l = dummy_method_to_enforce_bundling a := by
  intro a l hperm
  exact ⟨rfl, hperm.foldl_eq 0⟩

/-- Sample addresses 1 through 22. -/
def demoAddrs : ExportedAddrs :=
  ⟨1, 2, 3, 4, 5, 6, 7, 8, 9, 10, 11, 12, 13, 14, 15, 16, 17, 18, 19, 20,
   21, 22⟩

/-- Witness for C10: folding the sample addresses reversed matches the
declaration-order fold. -/
theorem dummy_bundling_spec_witness :
    dummy_method_to_enforce_bundling demoAddrs =
        (addrList demoAddrs).foldl Nat.xor 0 ∧
    List.foldl Nat.xor 0 (addrList demoAddrs).reverse =
      dummy_method_to_enforce_bundling demoAddrs :=
  dummy_bundling_spec demoAddrs (addrList demoAddrs).reverse
    ((addrList demoAddrs).reverse_perm)

end Phnx
